import Mathlib

/-!
Shallow embedding of the business-hours calendar engine:
`src/_lib/businessHours/index.ts`, `src/isWithinBusinessHours/index.ts`,
`src/businessHoursInInterval/index.ts` and `addBusinessHours`.

Modelling conventions:
* An instant is its JavaScript time value: an integer number of milliseconds
  (JS `Date` stores integer milliseconds; `TimeClip` truncates).  A possibly
  invalid date (`Invalid Date`, NaN time value) is `Option ℤ` with `none` the
  invalid sentinel.
* The calendar is fixed-offset: day boundaries every 86400000 ms, so the local
  `getDay`/`setHours`/`startOfDay` of the source become integer arithmetic.
  Day index 0 (the epoch day) is a Thursday, as for the Unix epoch, so
  `getDay t = (dayIndex t + 4) % 7` with `0 = Sunday`, as in JS.
* JS floating-point arithmetic on fractional minutes/hours is idealised as
  exact rational arithmetic (`ℚ`).
* A thrown `RangeError`/`TypeError` is an `Except` error; the distinct error
  messages of the source are the constructors of `BusinessHoursError`.
-/

deriving instance DecidableEq for Except

/-- Milliseconds per day. -/
def msPerDay : ℤ := 86400000

/-- The calendar day an instant falls on (floor division; `/` on `ℤ` rounds
toward minus infinity for this positive divisor). -/
def dayIndex (t : ℤ) : ℤ := t / msPerDay

/-- Milliseconds elapsed since the instant's local midnight. -/
def msOfDay (t : ℤ) : ℤ := t % msPerDay

/-- Local midnight of the instant's day: JS `setHours(0,0,0,0)` /
date-fns `startOfDay`. -/
def startOfDay (t : ℤ) : ℤ := dayIndex t * msPerDay

/-- date-fns `addDays` (fixed-offset calendar: exact multiples of a day). -/
def addDays (t : ℤ) (amount : ℤ) : ℤ := t + amount * msPerDay

/-- JS `date.setHours(h, m, 0, 0)`: same calendar day, time-of-day `h:m`. -/
def setHoursMin (t : ℤ) (h m : ℕ) : ℤ := startOfDay t + ((h * 60 + m : ℕ) : ℤ) * 60000

/-- JS `date.getDay()`: weekday 0-6 with 0 = Sunday. -/
def getDay (t : ℤ) : ℤ := (dayIndex t + 4) % 7

/-- JS `date.getHours()`. -/
def getHours (t : ℤ) : ℤ := msOfDay t / 3600000

/-- JS `date.getMinutes()`. -/
def getMinutes (t : ℤ) : ℤ := msOfDay t / 60000 % 60

/-- JS `ToIntegerOrInfinity` as used by `Date.prototype.setTime`: truncation
toward zero of a finite time value. -/
def jsTimeClip (v : ℚ) : ℤ := if v < 0 then ⌈v⌉ else ⌊v⌋

/-- date-fns `addMinutes` (possibly fractional amount): `setTime(getTime() +
amount * 60000)`. -/
def addMinutes (t : ℤ) (amount : ℚ) : ℤ := jsTimeClip ((t : ℚ) + amount * 60000)

/-- date-fns `isSameDay`: same local calendar day. -/
def isSameDay (t u : ℤ) : Bool := dayIndex t == dayIndex u

/-- The distinct failure modes of the engine, one constructor per distinct
thrown error of the source. -/
inductive BusinessHoursError where
  /-- `Invalid time format: ... Expected "HH:MM" format` (RangeError). -/
  | timeFormat
  /-- `Invalid time value: ... Hours must be 0-23 and minutes must be 0-59`
  (RangeError). -/
  | timeValue
  /-- `End of day ... must be after start of day ...` (RangeError). -/
  | endNotAfterStart
  /-- `workingDays must be a non-empty array` (RangeError). -/
  | workingDaysEmpty
  /-- `workingDays must contain integers between 0 (Sunday) and 6 (Saturday)`
  (RangeError). -/
  | workingDaysRange
  /-- `Start date is invalid` (RangeError). -/
  | invalidStart
  /-- `End date is invalid` (RangeError). -/
  | invalidEnd
  /-- `Start date must be before or equal to end date` (RangeError). -/
  | invertedInterval
  /-- `Unable to find working time within reasonable range` (RangeError). -/
  | advanceLimit
  /-- `Exceeded maximum iterations while adding business hours` (RangeError). -/
  | iterationLimit
deriving DecidableEq

/-- JS `String.prototype.split` with the one-character separator `":"`,
written on the character list of the string (`"".split(":")` is `[""]`). -/
def splitOnColon : List Char → List (List Char)
  | [] => [[]]
  | c :: rest =>
    if c = ':' then [] :: splitOnColon rest
    else
      match splitOnColon rest with
      | [] => [[c]]
      | g :: gs => (c :: g) :: gs

/-- Value of a digit string, as accumulated by JS `parseInt` in base 10. -/
def digitsVal (cs : List Char) : ℕ := cs.foldl (fun a c => 10 * a + (c.toNat - 48)) 0

/-- JS `parseInt(s, 10)`: skip leading whitespace, optional sign, longest
digit prefix (trailing garbage ignored); `none` models the NaN result. -/
def jsParseInt (s : List Char) : Option ℤ :=
  let cs := s.dropWhile fun c => c == ' ' || c == '\t' || c == '\n' || c == '\r'
  let signed : ℤ × List Char :=
    match cs with
    | '-' :: rest => (-1, rest)
    | '+' :: rest => (1, rest)
    | _ => (1, cs)
  let ds := signed.2.takeWhile Char.isDigit
  if ds.isEmpty then none else some (signed.1 * (digitsVal ds : ℤ))

/-- `parseTimeString` of `src/_lib/businessHours/index.ts`: split on `":"`,
demand exactly two fields (else the format error), then parse both fields and
demand hour 0-23 and minute 0-59, NaN fields failing the same check (else the
value error). -/
def parseTimeString (time : String) : Except BusinessHoursError (ℕ × ℕ) :=
  match splitOnColon time.toList with
  | [p0, p1] =>
    match jsParseInt p0, jsParseInt p1 with
    | some hours, some minutes =>
      if hours < 0 ∨ 23 < hours ∨ minutes < 0 ∨ 59 < minutes then
        .error .timeValue
      else
        .ok (hours.toNat, minutes.toNat)
    | _, _ => .error .timeValue
  | _ => .error .timeFormat

/-- Raw `BusinessHoursOptions`: every field optional.  (The opaque `in`
construction context of the source is a pass-through capability and is not
modelled; `holidays` entries are instants, time-of-day included.) -/
structure BusinessHoursOptions where
  startOfDay : Option String
  endOfDay : Option String
  workingDays : Option (List ℤ)
  holidays : Option (List ℤ)
deriving DecidableEq

/-- `NormalizedBusinessHoursOptions` of the source. -/
structure NormalizedBusinessHoursOptions where
  startHour : ℕ
  startMinute : ℕ
  endHour : ℕ
  endMinute : ℕ
  workingDays : List ℤ
  holidays : List ℤ
deriving DecidableEq

/-- Minute-of-day at which the working window opens. -/
def startMinuteOfDay (n : NormalizedBusinessHoursOptions) : ℤ :=
  (n.startHour : ℤ) * 60 + (n.startMinute : ℤ)

/-- Minute-of-day at which the working window closes. -/
def endMinuteOfDay (n : NormalizedBusinessHoursOptions) : ℤ :=
  (n.endHour : ℤ) * 60 + (n.endMinute : ℤ)

/-- `normalizeBusinessHoursOptions`: defaults, then the validation chain in
source order (time strings, end after start, workingDays non-empty and all
0-6).  The `Array.isArray` and `Number.isInteger` checks cannot fail in the
typed embedding. -/
def normalizeBusinessHoursOptions (o : BusinessHoursOptions) :
    Except BusinessHoursError NormalizedBusinessHoursOptions :=
  match parseTimeString (o.startOfDay.getD "09:00") with
  | .error e => .error e
  | .ok s =>
    match parseTimeString (o.endOfDay.getD "17:00") with
    | .error e => .error e
    | .ok e =>
      if e.1 < s.1 ∨ (e.1 = s.1 ∧ e.2 ≤ s.2) then .error .endNotAfterStart
      else if o.workingDays.getD [1, 2, 3, 4, 5] = [] then .error .workingDaysEmpty
      else if (o.workingDays.getD [1, 2, 3, 4, 5]).any fun d => decide (d < 0 ∨ 6 < d) then
        .error .workingDaysRange
      else .ok ⟨s.1, s.2, e.1, e.2, o.workingDays.getD [1, 2, 3, 4, 5], o.holidays.getD []⟩

/-- `isHoliday`: some holiday entry is on the same calendar day. -/
def isHoliday (t : ℤ) (holidays : List ℤ) : Bool :=
  holidays.any fun holiday => isSameDay t holiday

/-- `isWorkingDay`: the weekday is in `workingDays`. -/
def isWorkingDay (t : ℤ) (workingDays : List ℤ) : Bool :=
  workingDays.contains (getDay t)

/-- `getWorkingHoursStart`: `null` on a non-working day or holiday, else the
day at `startHour:startMinute`. -/
def getWorkingHoursStart (t : ℤ) (n : NormalizedBusinessHoursOptions) : Option ℤ :=
  if !isWorkingDay t n.workingDays || isHoliday t n.holidays then none
  else some (setHoursMin t n.startHour n.startMinute)

/-- `getWorkingHoursEnd`: `null` on a non-working day or holiday, else the
day at `endHour:endMinute`. -/
def getWorkingHoursEnd (t : ℤ) (n : NormalizedBusinessHoursOptions) : Option ℤ :=
  if !isWorkingDay t n.workingDays || isHoliday t n.holidays then none
  else some (setHoursMin t n.endHour n.endMinute)

/-- `isWithinBusinessHours`: false for an invalid date, else normalize (a
config error propagates), then working-day, holiday and half-open
minute-of-day window tests. -/
def isWithinBusinessHours (date : Option ℤ) (options : BusinessHoursOptions) :
    Except BusinessHoursError Bool :=
  match date with
  | none => .ok false
  | some t =>
    match normalizeBusinessHoursOptions options with
    | .error e => .error e
    | .ok n =>
      if !isWorkingDay t n.workingDays then .ok false
      else if isHoliday t n.holidays then .ok false
      else
        let currentMinutes := getHours t * 60 + getMinutes t
        let startMinutes := (n.startHour : ℤ) * 60 + (n.startMinute : ℤ)
        let endMinutes := (n.endHour : ℤ) * 60 + (n.endMinute : ℤ)
        .ok (decide (startMinutes ≤ currentMinutes ∧ currentMinutes < endMinutes))

/-- The code's `currentMinutes`: the instant's minute-of-day. -/
def minuteOfDay (t : ℤ) : ℤ := getHours t * 60 + getMinutes t

/-- Body of the day loop of `businessHoursInInterval`: the fractional hours
the interval `[s, e]` overlaps the working window of the day `d` lies in
(`0` when that day has no window or the overlap is empty). -/
def dayContribution (n : NormalizedBusinessHoursOptions) (s e d : ℤ) : ℚ :=
  match getWorkingHoursStart d n, getWorkingHoursEnd d n with
  | some workStart, some workEnd =>
    let overlapStart := max s workStart
    let overlapEnd := min e workEnd
    if overlapStart < overlapEnd ∨ overlapStart = overlapEnd then
      ((overlapEnd - overlapStart : ℤ) : ℚ) / (1000 * 60 * 60)
    else 0
  | _, _ => 0

/-- The day loop of `businessHoursInInterval`, as recursion on the number of
remaining days.  The source iterates `currentDay` from `startOfDay start` by
single days `while (isBefore(currentDay, addDays(endDay, 1)))`, which for
`start ≤ end` runs exactly `dayIndex end - dayIndex start + 1` times. -/
def sumBusinessDays (n : NormalizedBusinessHoursOptions) (s e : ℤ) : ℕ → ℤ → ℚ
  | 0, _ => 0
  | k + 1, d => dayContribution n s e d + sumBusinessDays n s e k (addDays d 1)

/-- `businessHoursInInterval`: invalid-start / invalid-end / inverted-interval
guards in source order, then normalization, then the day-by-day overlap sum. -/
def businessHoursInInterval (start endArg : Option ℤ) (options : BusinessHoursOptions) :
    Except BusinessHoursError ℚ :=
  match start with
  | none => .error .invalidStart
  | some s =>
    match endArg with
    | none => .error .invalidEnd
    | some e =>
      if e < s then .error .invertedInterval
      else
        match normalizeBusinessHoursOptions options with
        | .error er => .error er
        | .ok n => .ok (sumBusinessDays n s e (dayIndex e - dayIndex s + 1).toNat (startOfDay s))

/-- Fixed day-advance bound of `moveToWorkingTime`. -/
def maxAttempts : ℕ := 366

/-- Fixed iteration bound of the minute-consumption loop of
`addBusinessHours`. -/
def maxIterations : ℕ := 10000

/-- Exit of the `moveToWorkingTime` loop through `break`: the source still
throws the advance-limit `RangeError` afterwards when the break happened on
the very last permitted attempt (`attempts >= maxAttempts` is checked after
the loop), i.e. exactly when the remaining fuel is `0`. -/
def breakAt (fuel : ℕ) (t : ℤ) : Except BusinessHoursError ℤ :=
  if fuel = 0 then .error .advanceLimit else .ok t

/-- The `moveToWorkingTime` helper of `addBusinessHours`, with the loop
counter `attempts < maxAttempts` rendered as fuel `maxAttempts - attempts`:
running out of fuel is the advance-limit error.  A non-working or holiday day
steps one day in `dir` and sets the time-of-day to the window start (forward)
or window end (backward); on a working day the instant is snapped into the
window (the `null`-window re-check of the source is unreachable but kept). -/
def moveToWorkingTime (n : NormalizedBusinessHoursOptions) (dir : ℤ) :
    ℕ → ℤ → Except BusinessHoursError ℤ
  | 0, _ => .error .advanceLimit
  | fuel + 1, t =>
    if !isWorkingDay t n.workingDays || isHoliday t n.holidays then
      moveToWorkingTime n dir fuel
        (setHoursMin (addDays t dir) (if dir > 0 then n.startHour else n.endHour)
          (if dir > 0 then n.startMinute else n.endMinute))
    else
      match getWorkingHoursStart t n, getWorkingHoursEnd t n with
      | some workStart, some workEnd =>
        if dir > 0 then
          if t < workStart then breakAt fuel workStart
          else if workEnd ≤ t then
            moveToWorkingTime n dir fuel (setHoursMin (addDays t 1) n.startHour n.startMinute)
          else breakAt fuel t
        else
          if workEnd ≤ t then breakAt fuel workEnd
          else if t < workStart then
            moveToWorkingTime n dir fuel (setHoursMin (addDays t (-1)) n.endHour n.endMinute)
          else breakAt fuel t
      | _, _ =>
        moveToWorkingTime n dir fuel
          (setHoursMin (addDays t dir) (if dir > 0 then n.startHour else n.endHour)
            (if dir > 0 then n.startMinute else n.endMinute))

/-- The minute-consumption loop of `addBusinessHours`
(`while (remainingMinutes > 0 && iterations < maxIterations)`), with the
counter rendered as fuel `maxIterations - iterations`.  The source checks
`iterations >= maxIterations` after the loop, so exhausting the fuel is the
iteration-limit error even when the minutes were fully consumed on the very
last permitted iteration. -/
def addBusinessHoursLoop (n : NormalizedBusinessHoursOptions) (dir : ℤ) :
    ℕ → ℚ → ℤ → Except BusinessHoursError ℤ
  | 0, _, _ => .error .iterationLimit
  | fuel' + 1, remaining, t =>
    if 0 < remaining then
        match getWorkingHoursStart t n, getWorkingHoursEnd t n with
        | some workStart, some workEnd =>
          let available : ℚ :=
            if dir > 0 then ((workEnd - t : ℤ) : ℚ) / (1000 * 60)
            else ((t - workStart : ℤ) : ℚ) / (1000 * 60)
          if available ≥ remaining then
            addBusinessHoursLoop n dir fuel' 0 (addMinutes t (remaining * (dir : ℚ)))
          else
            let next :=
              if dir > 0 then setHoursMin (addDays t 1) n.startHour n.startMinute
              else setHoursMin (addDays t (-1)) n.endHour n.endMinute
            match moveToWorkingTime n dir maxAttempts next with
            | .error er => .error er
            | .ok t2 => addBusinessHoursLoop n dir fuel' (remaining - available) t2
        | _, _ =>
          match moveToWorkingTime n dir maxAttempts (addDays t dir) with
          | .error er => .error er
          | .ok t2 => addBusinessHoursLoop n dir fuel' remaining t2
    else .ok t

/-- Whether a day (by day index) is skipped by the walker: not a working
weekday, or some holiday entry lies on it.  For an instant `t` of that day
this is exactly the skip test `!isWorkingDay t _ || isHoliday t _` of
`moveToWorkingTime`. -/
def dayOff (n : NormalizedBusinessHoursOptions) (j : ℤ) : Bool :=
  !(n.workingDays.contains ((j + 4) % 7)) || n.holidays.any fun holiday => j == dayIndex holiday

/-- A JS `number` argument: finite (idealised as an exact rational), NaN, or
an infinity. -/
inductive JSNumber where
  | finite (q : ℚ)
  | nan
  | posInf
  | negInf
deriving DecidableEq

/-- `addBusinessHours`: Invalid-Date sentinel for an invalid date or
non-finite amount, a value-equal copy for amount `0`, otherwise normalize,
snap to working time (phase 1) and consume `|amount| * 60` minutes
(phase 2). -/
def addBusinessHours (date : Option ℤ) (amount : JSNumber) (options : BusinessHoursOptions) :
    Except BusinessHoursError (Option ℤ) :=
  match date with
  | none => .ok none
  | some t =>
    match amount with
    | .nan => .ok none
    | .posInf => .ok none
    | .negInf => .ok none
    | .finite a =>
      if a = 0 then .ok (some t)
      else
        match normalizeBusinessHoursOptions options with
        | .error e => .error e
        | .ok n =>
          let remainingMinutes := a * 60
          let direction : ℤ := if 0 ≤ remainingMinutes then 1 else -1
          match moveToWorkingTime n direction maxAttempts t with
          | .error e => .error e
          | .ok t1 =>
            match addBusinessHoursLoop n direction maxIterations |remainingMinutes| t1 with
            | .error e => .error e
            | .ok t2 => .ok (some t2)

/-- A pathological calendar for the advance-limit guard: the default
working days, with holiday entries covering every single day of the
walker's whole 366-day search horizon from day index 4 on. -/
def pathologicalOptions : BusinessHoursOptions :=
  ⟨none, none, none, some ((List.range 367).map fun k => ((4 + k : ℕ) : ℤ) * 86400000)⟩

/-- The normalized form of `pathologicalOptions`. -/
def pathologicalNormalized : NormalizedBusinessHoursOptions :=
  ⟨9, 0, 17, 0, [1, 2, 3, 4, 5], (List.range 367).map fun k => ((4 + k : ℕ) : ℤ) * 86400000⟩

/-! ## Arithmetic facts about the date primitives -/

theorem dayIndex_mul (j : ℤ) : dayIndex (j * msPerDay) = j := by
  unfold dayIndex msPerDay
  omega

theorem startOfDay_le_self (t : ℤ) : startOfDay t ≤ t := by
  unfold startOfDay dayIndex msPerDay
  omega

theorem lt_startOfDay_add (t : ℤ) : t < startOfDay t + msPerDay := by
  unfold startOfDay dayIndex msPerDay
  omega

theorem dayIndex_addDays (t k : ℤ) : dayIndex (addDays t k) = dayIndex t + k := by
  unfold dayIndex addDays msPerDay
  omega

theorem setHoursMin_eq (t : ℤ) (h m : ℕ) :
    setHoursMin t h m = dayIndex t * msPerDay + ((h : ℤ) * 60 + (m : ℤ)) * 60000 := by
  unfold setHoursMin startOfDay
  push_cast
  ring

theorem dayIndex_setHoursMin (t : ℤ) (h m : ℕ) (hb : h * 60 + m < 1440) :
    dayIndex (setHoursMin t h m) = dayIndex t := by
  rw [setHoursMin_eq]
  unfold dayIndex msPerDay
  omega

/-! ## Facts about configuration normalization -/

theorem parseTimeString_ok_bounds {s : String} {p : ℕ × ℕ}
    (h : parseTimeString s = .ok p) : p.1 ≤ 23 ∧ p.2 ≤ 59 := by
  unfold parseTimeString at h
  split at h
  · split at h
    · split at h
      · exact absurd h (by simp)
      · rename_i hours minutes _ hcond
        rw [Except.ok.injEq] at h
        subst h
        simp only [not_or, not_lt] at hcond
        constructor <;> simp <;> omega
    · exact absurd h (by simp)
  · exact absurd h (by simp)

theorem parseTimeString_error_class {s : String} {e : BusinessHoursError}
    (h : parseTimeString s = .error e) : e = .timeFormat ∨ e = .timeValue := by
  unfold parseTimeString at h
  split at h
  · split at h
    · split at h
      · rw [Except.error.injEq] at h
        right
        exact h.symm
      · exact absurd h (by simp)
    · rw [Except.error.injEq] at h
      right
      exact h.symm
  · rw [Except.error.injEq] at h
    left
    exact h.symm

theorem normalize_ok_facts {o : BusinessHoursOptions} {n : NormalizedBusinessHoursOptions}
    (h : normalizeBusinessHoursOptions o = .ok n) :
    n.startHour ≤ 23 ∧ n.startMinute ≤ 59 ∧ n.endHour ≤ 23 ∧ n.endMinute ≤ 59 ∧
      n.startHour * 60 + n.startMinute < n.endHour * 60 + n.endMinute := by
  unfold normalizeBusinessHoursOptions at h
  split at h
  · exact absurd h (by simp)
  · rename_i s hs
    split at h
    · exact absurd h (by simp)
    · rename_i e he
      split at h
      · exact absurd h (by simp)
      · rename_i hcond
        split at h
        · exact absurd h (by simp)
        · split at h
          · exact absurd h (by simp)
          · rw [Except.ok.injEq] at h
            subst h
            obtain ⟨hs1, hs2⟩ := parseTimeString_ok_bounds hs
            obtain ⟨he1, he2⟩ := parseTimeString_ok_bounds he
            simp only [not_or, not_lt, not_and] at hcond
            refine ⟨hs1, hs2, he1, he2, ?_⟩
            simp only
            omega

theorem normalize_error_class {o : BusinessHoursOptions} {e : BusinessHoursError}
    (h : normalizeBusinessHoursOptions o = .error e) :
    e = .timeFormat ∨ e = .timeValue ∨ e = .endNotAfterStart ∨
      e = .workingDaysEmpty ∨ e = .workingDaysRange := by
  unfold normalizeBusinessHoursOptions at h
  split at h
  · rename_i hs
    rw [Except.error.injEq] at h
    subst h
    rcases parseTimeString_error_class hs with h1 | h1
    · exact Or.inl h1
    · exact Or.inr (Or.inl h1)
  · split at h
    · rename_i he
      rw [Except.error.injEq] at h
      subst h
      rcases parseTimeString_error_class he with h1 | h1
      · exact Or.inl h1
      · exact Or.inr (Or.inl h1)
    · split at h
      · rw [Except.error.injEq] at h
        exact Or.inr (Or.inr (Or.inl h.symm))
      · split at h
        · rw [Except.error.injEq] at h
          exact Or.inr (Or.inr (Or.inr (Or.inl h.symm)))
        · split at h
          · rw [Except.error.injEq] at h
            exact Or.inr (Or.inr (Or.inr (Or.inr h.symm)))
          · exact absurd h (by simp)

/-! ## Facts about the hour walker -/

theorem breakAt_cases (fuel : ℕ) (t : ℤ) :
    (∃ r, breakAt fuel t = .ok r) ∨ breakAt fuel t = .error .advanceLimit := by
  unfold breakAt
  split
  · right
    rfl
  · left
    exact ⟨t, rfl⟩

theorem moveToWorkingTime_ok_or_limit (n : NormalizedBusinessHoursOptions) (dir : ℤ) :
    ∀ (fuel : ℕ) (t : ℤ),
      (∃ r, moveToWorkingTime n dir fuel t = .ok r) ∨
        moveToWorkingTime n dir fuel t = .error .advanceLimit := by
  intro fuel
  induction fuel with
  | zero => intro t; right; rfl
  | succ k ih =>
    intro t
    unfold moveToWorkingTime
    split
    · exact ih _
    · split
      · split
        · split
          · exact breakAt_cases k _
          · split
            · exact ih _
            · exact breakAt_cases k _
        · split
          · exact breakAt_cases k _
          · split
            · exact ih _
            · exact breakAt_cases k _
      · exact ih _

theorem addBusinessHoursLoop_cases (n : NormalizedBusinessHoursOptions) (dir : ℤ) :
    ∀ (fuel : ℕ) (remaining : ℚ) (t : ℤ),
      (∃ r, addBusinessHoursLoop n dir fuel remaining t = .ok r) ∨
        addBusinessHoursLoop n dir fuel remaining t = .error .iterationLimit ∨
        addBusinessHoursLoop n dir fuel remaining t = .error .advanceLimit := by
  intro fuel
  induction fuel with
  | zero => intro remaining t; right; left; rfl
  | succ k ih =>
    intro remaining t
    unfold addBusinessHoursLoop
    split
    · split
      · dsimp only
        split
        · split
          · exact ih _ _
          · rcases moveToWorkingTime_ok_or_limit n dir maxAttempts _ with ⟨r, hr⟩ | hr
            · rw [hr]
              exact ih _ _
            · rw [hr]
              right
              right
              rfl
        · split
          · exact ih _ _
          · rcases moveToWorkingTime_ok_or_limit n dir maxAttempts _ with ⟨r, hr⟩ | hr
            · rw [hr]
              exact ih _ _
            · rw [hr]
              right
              right
              rfl
      · rcases moveToWorkingTime_ok_or_limit n dir maxAttempts _ with ⟨r, hr⟩ | hr
        · rw [hr]
          exact ih _ _
        · rw [hr]
          right
          right
          rfl
    · left
      exact ⟨t, rfl⟩

theorem dayOff_spec (n : NormalizedBusinessHoursOptions) (t : ℤ) :
    dayOff n (dayIndex t) = (!isWorkingDay t n.workingDays || isHoliday t n.holidays) := rfl

theorem moveToWorkingTime_allOff (n : NormalizedBusinessHoursOptions)
    (hsb : n.startHour * 60 + n.startMinute < 1440) :
    ∀ (fuel : ℕ) (t : ℤ), (∀ k : ℕ, k < fuel → dayOff n (dayIndex t + k) = true) →
      moveToWorkingTime n 1 fuel t = .error .advanceLimit := by
  intro fuel
  induction fuel with
  | zero => intro t _; rfl
  | succ k ih =>
    intro t hcov
    have h0 : (!isWorkingDay t n.workingDays || isHoliday t n.holidays) = true := by
      rw [← dayOff_spec]
      simpa using hcov 0 (Nat.succ_pos k)
    unfold moveToWorkingTime
    rw [if_pos h0]
    norm_num
    apply ih
    intro j hj
    have hd : dayIndex (setHoursMin (addDays t 1) n.startHour n.startMinute) = dayIndex t + 1 := by
      rw [dayIndex_setHoursMin _ _ _ hsb, dayIndex_addDays]
    rw [hd]
    have := hcov (j + 1) (by omega)
    convert this using 2
    omega

/-! ## Facts about the interval aggregator -/

theorem sumBusinessDays_eq_sum (n : NormalizedBusinessHoursOptions) (s e : ℤ) :
    ∀ (k : ℕ) (d : ℤ),
      sumBusinessDays n s e k d =
        ∑ i ∈ Finset.range k, dayContribution n s e (d + (i : ℤ) * msPerDay) := by
  intro k
  induction k with
  | zero => intro d; simp [sumBusinessDays]
  | succ m ih =>
    intro d
    rw [Finset.sum_range_succ']
    unfold sumBusinessDays
    rw [ih]
    have harg : ∀ i : ℕ, addDays d 1 + (i : ℤ) * msPerDay = d + ((i : ℕ) + 1 : ℤ) * msPerDay := by
      intro i
      unfold addDays
      ring
    rw [Finset.sum_congr rfl fun i _ => by rw [harg i]]
    push_cast
    simp [add_comm]

theorem dayContribution_eq_max (n : NormalizedBusinessHoursOptions) (s e d : ℤ) :
    dayContribution n s e d =
      if !isWorkingDay d n.workingDays || isHoliday d n.holidays then 0
      else
        ((max 0 (min e (setHoursMin d n.endHour n.endMinute) -
            max s (setHoursMin d n.startHour n.startMinute)) : ℤ) : ℚ) / (1000 * 60 * 60) := by
  by_cases hoff : (!isWorkingDay d n.workingDays || isHoliday d n.holidays) = true
  · unfold dayContribution getWorkingHoursStart getWorkingHoursEnd
    rw [if_pos hoff, if_pos hoff, if_pos hoff]
  · unfold dayContribution getWorkingHoursStart getWorkingHoursEnd
    rw [if_neg hoff, if_neg hoff, if_neg hoff]
    dsimp only
    rcases le_or_lt (max s (setHoursMin d n.startHour n.startMinute))
        (min e (setHoursMin d n.endHour n.endMinute)) with hle | hlt
    · rw [if_pos (lt_or_eq_of_le hle), max_eq_right (sub_nonneg.mpr hle)]
    · rw [if_neg (by rintro (h | h) <;> linarith), max_eq_left (by linarith)]
      simp

theorem window_le_of_dayIndex_lt {d b : ℤ} (n : NormalizedBusinessHoursOptions)
    (he1 : n.endHour ≤ 23) (he2 : n.endMinute ≤ 59) (hd : dayIndex d < dayIndex b) :
    setHoursMin d n.endHour n.endMinute ≤ b := by
  rw [setHoursMin_eq]
  unfold dayIndex msPerDay at *
  omega

theorem lt_window_of_dayIndex_lt {d b : ℤ} (n : NormalizedBusinessHoursOptions)
    (hd : dayIndex b < dayIndex d) :
    b < setHoursMin d n.startHour n.startMinute := by
  rw [setHoursMin_eq]
  unfold dayIndex msPerDay at *
  omega

theorem dayContribution_early (n : NormalizedBusinessHoursOptions) {a b c d : ℤ}
    (he1 : n.endHour ≤ 23) (he2 : n.endMinute ≤ 59) (hbc : b ≤ c)
    (hd : dayIndex d < dayIndex b) :
    dayContribution n a c d = dayContribution n a b d := by
  rw [dayContribution_eq_max, dayContribution_eq_max]
  split
  · rfl
  · have hwb : setHoursMin d n.endHour n.endMinute ≤ b := window_le_of_dayIndex_lt n he1 he2 hd
    rw [min_eq_right hwb, min_eq_right (le_trans hwb hbc)]

theorem dayContribution_late (n : NormalizedBusinessHoursOptions) {a b c d : ℤ}
    (hab : a ≤ b) (hd : dayIndex b < dayIndex d) :
    dayContribution n a c d = dayContribution n b c d := by
  rw [dayContribution_eq_max, dayContribution_eq_max]
  split
  · rfl
  · have hwa : b < setHoursMin d n.startHour n.startMinute := lt_window_of_dayIndex_lt n hd
    rw [max_eq_right (le_of_lt hwa), max_eq_right (le_of_lt (lt_of_le_of_lt hab hwa))]

theorem max0_overlap_split {a b c ws we : ℤ} (hab : a ≤ b) (hbc : b ≤ c) (hw : ws ≤ we) :
    max 0 (min c we - max a ws) = max 0 (min b we - max a ws) + max 0 (min c we - max b ws) := by
  rcases le_total b ws with h1 | h1
  · rw [min_eq_left (h1.trans hw), max_eq_right h1, max_eq_right (hab.trans h1),
      max_eq_left (by linarith : b - ws ≤ (0 : ℤ)), zero_add]
  · rcases le_total we b with h2 | h2
    · rw [min_eq_right h2, min_eq_right (h2.trans hbc), max_eq_left (hw.trans h2),
        max_eq_left (by linarith : we - b ≤ (0 : ℤ)), add_zero]
    · have e1 : max a ws ≤ b := max_le hab h1
      have e2 : b ≤ min c we := le_min hbc h2
      rw [min_eq_left h2, max_eq_left h1,
        max_eq_right (by linarith : (0 : ℤ) ≤ min c we - max a ws),
        max_eq_right (by linarith : (0 : ℤ) ≤ b - max a ws),
        max_eq_right (by linarith : (0 : ℤ) ≤ min c we - b)]
      ring

theorem dayContribution_split (n : NormalizedBusinessHoursOptions) {a b c : ℤ} (d : ℤ)
    (hab : a ≤ b) (hbc : b ≤ c)
    (hmm : n.startHour * 60 + n.startMinute ≤ n.endHour * 60 + n.endMinute) :
    dayContribution n a c d = dayContribution n a b d + dayContribution n b c d := by
  rw [dayContribution_eq_max, dayContribution_eq_max, dayContribution_eq_max]
  split
  · simp
  · have hwswe : setHoursMin d n.startHour n.startMinute ≤ setHoursMin d n.endHour n.endMinute := by
      rw [setHoursMin_eq, setHoursMin_eq]
      omega
    rw [max0_overlap_split hab hbc hwswe, Int.cast_add, add_div]

theorem dayIndex_mono {a b : ℤ} (h : a ≤ b) : dayIndex a ≤ dayIndex b := by
  unfold dayIndex msPerDay
  omega

theorem dayIndex_startOfDay_add (t i : ℤ) :
    dayIndex (startOfDay t + i * msPerDay) = dayIndex t + i := by
  unfold startOfDay dayIndex msPerDay
  omega

theorem sumBusinessDays_additive (n : NormalizedBusinessHoursOptions) {a b c : ℤ}
    (hab : a ≤ b) (hbc : b ≤ c) (he1 : n.endHour ≤ 23) (he2 : n.endMinute ≤ 59)
    (hmm : n.startHour * 60 + n.startMinute ≤ n.endHour * 60 + n.endMinute) :
    sumBusinessDays n a c (dayIndex c - dayIndex a + 1).toNat (startOfDay a) =
      sumBusinessDays n a b (dayIndex b - dayIndex a + 1).toNat (startOfDay a) +
        sumBusinessDays n b c (dayIndex c - dayIndex b + 1).toNat (startOfDay b) := by
  have hdab := dayIndex_mono hab
  have hdbc := dayIndex_mono hbc
  set p := (dayIndex b - dayIndex a).toNat with hpdef
  set q := (dayIndex c - dayIndex b).toNat with hqdef
  have hpz : (p : ℤ) = dayIndex b - dayIndex a := by omega
  have hqz : (q : ℤ) = dayIndex c - dayIndex b := by omega
  have h1 : (dayIndex c - dayIndex a + 1).toNat = p + 1 + q := by omega
  have h2 : (dayIndex b - dayIndex a + 1).toNat = p + 1 := by omega
  have h3 : (dayIndex c - dayIndex b + 1).toNat = q + 1 := by omega
  rw [h1, h2, h3, sumBusinessDays_eq_sum, sumBusinessDays_eq_sum, sumBusinessDays_eq_sum]
  have e_ac :
      (∑ i ∈ Finset.range (p + 1 + q), dayContribution n a c (startOfDay a + (i : ℤ) * msPerDay)) =
        ((∑ i ∈ Finset.range p, dayContribution n a c (startOfDay a + (i : ℤ) * msPerDay)) +
            dayContribution n a c (startOfDay a + (p : ℤ) * msPerDay)) +
          ∑ i ∈ Finset.range q,
            dayContribution n a c (startOfDay a + ((p + 1 + i : ℕ) : ℤ) * msPerDay) := by
    rw [Finset.sum_range_add, Finset.sum_range_succ]
  have e_ab :
      (∑ i ∈ Finset.range (p + 1), dayContribution n a b (startOfDay a + (i : ℤ) * msPerDay)) =
        (∑ i ∈ Finset.range p, dayContribution n a b (startOfDay a + (i : ℤ) * msPerDay)) +
          dayContribution n a b (startOfDay a + (p : ℤ) * msPerDay) := by
    rw [Finset.sum_range_succ]
  have e_bc :
      (∑ i ∈ Finset.range (q + 1), dayContribution n b c (startOfDay b + (i : ℤ) * msPerDay)) =
        (∑ i ∈ Finset.range q, dayContribution n b c (startOfDay b + ((i + 1 : ℕ) : ℤ) * msPerDay)) +
          dayContribution n b c (startOfDay b + ((0 : ℕ) : ℤ) * msPerDay) := by
    rw [Finset.sum_range_succ']
  rw [e_ac, e_ab, e_bc]
  have hsob : startOfDay a + (p : ℤ) * msPerDay = startOfDay b := by
    unfold startOfDay
    rw [show dayIndex b = dayIndex a + (p : ℤ) by omega]
    ring
  have P1 :
      (∑ i ∈ Finset.range p, dayContribution n a c (startOfDay a + (i : ℤ) * msPerDay)) =
        ∑ i ∈ Finset.range p, dayContribution n a b (startOfDay a + (i : ℤ) * msPerDay) := by
    refine Finset.sum_congr rfl fun i hi => ?_
    have hi' : (i : ℤ) < (p : ℤ) := by exact_mod_cast Finset.mem_range.mp hi
    exact dayContribution_early n he1 he2 hbc
      (by rw [dayIndex_startOfDay_add]; omega)
  have P2 :
      dayContribution n a c (startOfDay a + (p : ℤ) * msPerDay) =
        dayContribution n a b (startOfDay a + (p : ℤ) * msPerDay) +
          dayContribution n b c (startOfDay b + ((0 : ℕ) : ℤ) * msPerDay) := by
    rw [show startOfDay b + ((0 : ℕ) : ℤ) * msPerDay = startOfDay b by push_cast; ring, ← hsob]
    exact dayContribution_split n _ hab hbc hmm
  have P3 :
      (∑ i ∈ Finset.range q,
          dayContribution n a c (startOfDay a + ((p + 1 + i : ℕ) : ℤ) * msPerDay)) =
        ∑ i ∈ Finset.range q, dayContribution n b c (startOfDay b + ((i + 1 : ℕ) : ℤ) * msPerDay) := by
    refine Finset.sum_congr rfl fun i hi => ?_
    have harg : startOfDay a + ((p + 1 + i : ℕ) : ℤ) * msPerDay =
        startOfDay b + ((i + 1 : ℕ) : ℤ) * msPerDay := by
      unfold startOfDay
      rw [show dayIndex b = dayIndex a + (p : ℤ) by omega]
      push_cast
      ring
    rw [harg]
    exact dayContribution_late n hab (by rw [dayIndex_startOfDay_add]; push_cast; omega)
  rw [P1, P2, P3]
  ring

theorem businessHoursInInterval_eval {o : BusinessHoursOptions} {n : NormalizedBusinessHoursOptions}
    (hn : normalizeBusinessHoursOptions o = .ok n) {s e : ℤ} (hse : s ≤ e) :
    businessHoursInInterval (some s) (some e) o =
      .ok (sumBusinessDays n s e (dayIndex e - dayIndex s + 1).toNat (startOfDay s)) := by
  unfold businessHoursInInterval
  dsimp only
  rw [if_neg (not_lt.mpr hse), hn]

theorem isWithinBusinessHours_some_eval {o : BusinessHoursOptions}
    {n : NormalizedBusinessHoursOptions} (hn : normalizeBusinessHoursOptions o = .ok n) (t : ℤ) :
    isWithinBusinessHours (some t) o =
      .ok (isWorkingDay t n.workingDays && !isHoliday t n.holidays &&
        decide (startMinuteOfDay n ≤ minuteOfDay t ∧ minuteOfDay t < endMinuteOfDay n)) := by
  unfold isWithinBusinessHours
  rw [hn]
  dsimp only
  by_cases h1 : isWorkingDay t n.workingDays
  · rw [if_neg (by simp [h1])]
    by_cases h2 : isHoliday t n.holidays
    · rw [if_pos h2]
      simp [h1, h2]
    · rw [if_neg h2]
      simp only [h1, h2, Bool.not_false, Bool.and_true, Bool.true_and]
      rfl
  · rw [if_pos (by simp [h1])]
    simp [h1]

/-! ## The claims

`Rat`'s arithmetic is `@[irreducible]` in Batteries; unsealing it lets
concrete runs of the engine evaluate inside `decide`. -/

unseal Rat.add Rat.sub Rat.mul Rat.inv Rat.ofScientific

/-- C1: with the default calendar (no holidays), `addBusinessHours` from
Monday 09:00 (day index 4 is a Monday: weekday 1) with amount `-5` returns
the previous Friday (day index 1, weekday 5) at 12:00: the backward snap
keeps Monday 09:00 (0 minutes then available), the weekend is crossed
backward snapping Sunday 17:00 to Friday 17:00 (the window end), and the
5 hours are consumed from there. -/
theorem c1_backward_across_weekend :
    normalizeBusinessHoursOptions ⟨none, none, none, none⟩ =
      .ok ⟨9, 0, 17, 0, [1, 2, 3, 4, 5], []⟩ ∧
    getDay 378000000 = 1 ∧ minuteOfDay 378000000 = 540 ∧
    getDay 129600000 = 5 ∧ minuteOfDay 129600000 = 720 ∧
    moveToWorkingTime ⟨9, 0, 17, 0, [1, 2, 3, 4, 5], []⟩ (-1) 366 378000000 = .ok 378000000 ∧
    moveToWorkingTime ⟨9, 0, 17, 0, [1, 2, 3, 4, 5], []⟩ (-1) 366 320400000 = .ok 147600000 ∧
    getDay 147600000 = 5 ∧ minuteOfDay 147600000 = 1020 ∧
    addBusinessHours (some 378000000) (.finite (-5)) ⟨none, none, none, none⟩ =
      .ok (some 129600000) := by
  decide

/-- C2: `businessHoursInInterval` is additive at any intermediate instant
`b` with `a ≤ b ≤ c`, for every configuration that normalizes, with exact
rational arithmetic. -/
theorem c2_businessHoursInInterval_additive (a b c : ℤ) (o : BusinessHoursOptions)
    (n : NormalizedBusinessHoursOptions) (hab : a ≤ b) (hbc : b ≤ c)
    (hn : normalizeBusinessHoursOptions o = .ok n) :
    ∃ x y z : ℚ,
      businessHoursInInterval (some a) (some c) o = .ok x ∧
        businessHoursInInterval (some a) (some b) o = .ok y ∧
          businessHoursInInterval (some b) (some c) o = .ok z ∧ x = y + z := by
  obtain ⟨h1, h2, h3, h4, h5⟩ := normalize_ok_facts hn
  exact ⟨_, _, _, businessHoursInInterval_eval hn (hab.trans hbc),
    businessHoursInInterval_eval hn hab, businessHoursInInterval_eval hn hbc,
    sumBusinessDays_additive n hab hbc h3 h4 (le_of_lt h5)⟩

/-- Witness for C2 at a concrete instance: Monday 09:00 to Wednesday 17:00
split at Tuesday 13:00, default calendar. -/
theorem c2_additive_witness :
    ∃ x y z : ℚ,
      businessHoursInInterval (some 378000000) (some 579600000) ⟨none, none, none, none⟩ = .ok x ∧
        businessHoursInInterval (some 378000000) (some 478800000) ⟨none, none, none, none⟩ = .ok y ∧
          businessHoursInInterval (some 478800000) (some 579600000) ⟨none, none, none, none⟩ =
            .ok z ∧ x = y + z :=
  c2_businessHoursInInterval_additive 378000000 478800000 579600000 ⟨none, none, none, none⟩
    ⟨9, 0, 17, 0, [1, 2, 3, 4, 5], []⟩ (by decide) (by decide) (by decide)

/-- C6: an invalid starting instant makes the membership test false and the
offset operation return the Invalid-Date sentinel, a NaN or infinite amount
makes the offset operation return the sentinel, and none of these raises an
error. -/
theorem c6_invalid_inputs_propagate (o : BusinessHoursOptions) (amt : JSNumber) (t : ℤ) :
    isWithinBusinessHours none o = .ok false ∧
    addBusinessHours none amt o = .ok none ∧
    addBusinessHours (some t) .nan o = .ok none ∧
    addBusinessHours (some t) .posInf o = .ok none ∧
    addBusinessHours (some t) .negInf o = .ok none :=
  ⟨rfl, rfl, rfl, rfl, rfl⟩

/-- C9: adding exactly zero business hours returns a value equal to the
input for every valid instant and every options object (the model is pure,
so no path mutates the input). -/
theorem c9_add_zero_hours (t : ℤ) (o : BusinessHoursOptions) :
    addBusinessHours (some t) (.finite 0) o = .ok (some t) := by
  unfold addBusinessHours
  dsimp only
  rw [if_pos rfl]

/-- C3: `isWithinBusinessHours` is true exactly when the instant is valid,
its weekday is a working day, its day is not a holiday, and its minute-of-day
lies in the half-open window `[startMinuteOfDay, endMinuteOfDay)`; for the
default 09:00-17:00 calendar it is true at minute-of-day 540 and false at
minute-of-day 1020 on a working day (Monday, day index 4). -/
theorem c3_isWithinBusinessHours_characterization (d : Option ℤ) (o : BusinessHoursOptions)
    (n : NormalizedBusinessHoursOptions) (hn : normalizeBusinessHoursOptions o = .ok n) :
    (isWithinBusinessHours d o = .ok true ↔
      ∃ t, d = some t ∧ isWorkingDay t n.workingDays = true ∧ isHoliday t n.holidays = false ∧
        startMinuteOfDay n ≤ minuteOfDay t ∧ minuteOfDay t < endMinuteOfDay n) ∧
    minuteOfDay 378000000 = 540 ∧
    isWithinBusinessHours (some 378000000) ⟨none, none, none, none⟩ = .ok true ∧
    minuteOfDay 406800000 = 1020 ∧
    isWithinBusinessHours (some 406800000) ⟨none, none, none, none⟩ = .ok false := by
  refine ⟨?_, by decide, by decide, by decide, by decide⟩
  cases d with
  | none =>
    constructor
    · intro h
      exact absurd h (by simp [isWithinBusinessHours])
    · rintro ⟨t, ht, -⟩
      exact absurd ht (by simp)
  | some t =>
    rw [isWithinBusinessHours_some_eval hn t]
    constructor
    · intro h
      rw [Except.ok.injEq] at h
      simp only [Bool.and_eq_true, decide_eq_true_eq, Bool.not_eq_true'] at h
      exact ⟨t, rfl, h.1.1, h.1.2, h.2⟩
    · rintro ⟨t', ht', hw, hh, hlo, hhi⟩
      rw [Option.some.injEq] at ht'
      subst ht'
      rw [hw, hh]
      simp only [Bool.not_false, Bool.and_true, Bool.true_and, Except.ok.injEq,
        decide_eq_true_eq]
      exact ⟨hlo, hhi⟩

/-- Witness for C3 at a concrete instance: default options, Monday 10:00. -/
theorem c3_characterization_witness :
    (isWithinBusinessHours (some 381600000) ⟨none, none, none, none⟩ = .ok true ↔
      ∃ t, (some 381600000 : Option ℤ) = some t ∧
        isWorkingDay t [1, 2, 3, 4, 5] = true ∧ isHoliday t [] = false ∧
        startMinuteOfDay ⟨9, 0, 17, 0, [1, 2, 3, 4, 5], []⟩ ≤ minuteOfDay t ∧
          minuteOfDay t < endMinuteOfDay ⟨9, 0, 17, 0, [1, 2, 3, 4, 5], []⟩) ∧
    minuteOfDay 378000000 = 540 ∧
    isWithinBusinessHours (some 378000000) ⟨none, none, none, none⟩ = .ok true ∧
    minuteOfDay 406800000 = 1020 ∧
    isWithinBusinessHours (some 406800000) ⟨none, none, none, none⟩ = .ok false :=
  c3_isWithinBusinessHours_characterization (some 381600000) ⟨none, none, none, none⟩
    ⟨9, 0, 17, 0, [1, 2, 3, 4, 5], []⟩ (by decide)

/-- C4: a holiday entry removes its whole calendar day regardless of either
time-of-day: `isHoliday` is true for every instant of that day, the day's
working window resolves to `none`, `isWithinBusinessHours` is false there,
and the day contributes `0` to the interval sum. -/
theorem c4_holiday_excludes_whole_day (o : BusinessHoursOptions)
    (n : NormalizedBusinessHoursOptions) (hn : normalizeBusinessHoursOptions o = .ok n)
    (h t : ℤ) (hh : h ∈ n.holidays) (ht : isSameDay t h = true) :
    isHoliday t n.holidays = true ∧
    getWorkingHoursStart t n = none ∧
    getWorkingHoursEnd t n = none ∧
    isWithinBusinessHours (some t) o = .ok false ∧
    ∀ s e : ℤ, dayContribution n s e t = 0 := by
  have hhol : isHoliday t n.holidays = true := by
    unfold isHoliday
    rw [List.any_eq_true]
    exact ⟨h, hh, ht⟩
  have hws : getWorkingHoursStart t n = none := by
    unfold getWorkingHoursStart
    rw [if_pos (by rw [hhol, Bool.or_true])]
  have hwe : getWorkingHoursEnd t n = none := by
    unfold getWorkingHoursEnd
    rw [if_pos (by rw [hhol, Bool.or_true])]
  refine ⟨hhol, hws, hwe, ?_, ?_⟩
  · rw [isWithinBusinessHours_some_eval hn t, hhol]
    simp
  · intro s e
    unfold dayContribution
    rw [hws, hwe]

/-- Witness for C4 at a concrete instance: holiday entry Tuesday 15:30
(day index 5) removes Tuesday 10:00 of the same day. -/
theorem c4_holiday_witness :
    isHoliday 435600000 [487800000] = true ∧
    getWorkingHoursStart 435600000 ⟨9, 0, 17, 0, [1, 2, 3, 4, 5], [487800000]⟩ = none ∧
    getWorkingHoursEnd 435600000 ⟨9, 0, 17, 0, [1, 2, 3, 4, 5], [487800000]⟩ = none ∧
    isWithinBusinessHours (some 435600000) ⟨none, none, none, some [487800000]⟩ = .ok false ∧
    ∀ s e : ℤ, dayContribution ⟨9, 0, 17, 0, [1, 2, 3, 4, 5], [487800000]⟩ s e 435600000 = 0 :=
  c4_holiday_excludes_whole_day ⟨none, none, none, some [487800000]⟩
    ⟨9, 0, 17, 0, [1, 2, 3, 4, 5], [487800000]⟩ (by decide) 487800000 435600000
    (by decide) (by decide)

/-- C8: `businessHoursInInterval` raises the distinguished invalid-start,
invalid-end and inverted-interval errors before any day iteration, and for
valid `start ≤ end` none of these three errors can be raised. -/
theorem c8_interval_guard_errors (s e : ℤ) (d : Option ℤ) (o : BusinessHoursOptions) :
    businessHoursInInterval none d o = .error .invalidStart ∧
    businessHoursInInterval (some s) none o = .error .invalidEnd ∧
    (e < s → businessHoursInInterval (some s) (some e) o = .error .invertedInterval) ∧
    (s ≤ e → ∀ er, businessHoursInInterval (some s) (some e) o = .error er →
      er ≠ .invalidStart ∧ er ≠ .invalidEnd ∧ er ≠ .invertedInterval) := by
  refine ⟨rfl, rfl, fun hlt => ?_, fun hse er her => ?_⟩
  · unfold businessHoursInInterval
    dsimp only
    rw [if_pos hlt]
  · unfold businessHoursInInterval at her
    dsimp only at her
    rw [if_neg (not_lt.mpr hse)] at her
    rcases hnorm : normalizeBusinessHoursOptions o with e' | n
    · rw [hnorm] at her
      rw [Except.error.injEq] at her
      subst her
      rcases normalize_error_class hnorm with h | h | h | h | h <;> subst h <;>
        exact ⟨by decide, by decide, by decide⟩
    · rw [hnorm] at her
      exact absurd her (by simp)

/-- Witness for C8 at concrete instances: an inverted interval raises the
inverted-interval error. -/
theorem c8_interval_guard_witness :
    businessHoursInInterval (some 1) (some 0) ⟨none, none, none, none⟩ =
      .error .invertedInterval :=
  (c8_interval_guard_errors 1 0 none ⟨none, none, none, none⟩).2.2.1 (by decide)

/-- C10: the operand checks run before configuration validation: for an
options object whose normalization fails, an invalid instant still returns
false / the sentinel, a non-finite or zero amount still short-circuits, and
the interval guards still raise their own errors - never the configuration
error. -/
theorem c10_operand_checks_precede_config (o : BusinessHoursOptions) (e : BusinessHoursError)
    (hbad : normalizeBusinessHoursOptions o = .error e) (t u : ℤ) (amt : JSNumber) :
    isWithinBusinessHours none o = .ok false ∧
    addBusinessHours none amt o = .ok none ∧
    addBusinessHours (some t) .nan o = .ok none ∧
    addBusinessHours (some t) .posInf o = .ok none ∧
    addBusinessHours (some t) .negInf o = .ok none ∧
    addBusinessHours (some t) (.finite 0) o = .ok (some t) ∧
    businessHoursInInterval none (some u) o = .error .invalidStart ∧
    businessHoursInInterval (some t) none o = .error .invalidEnd ∧
    (u < t → businessHoursInInterval (some t) (some u) o = .error .invertedInterval) := by
  refine ⟨rfl, rfl, rfl, rfl, rfl, ?_, rfl, rfl, fun hlt => ?_⟩
  · unfold addBusinessHours
    dsimp only
    rw [if_pos rfl]
  · unfold businessHoursInInterval
    dsimp only
    rw [if_pos hlt]

/-- Witness for C10 at a concrete instance: `startOfDay: "25:00"` is a
malformed options object (hour out of range), yet an inverted interval still
raises the inverted-interval error, not the configuration error. -/
theorem c10_operand_checks_witness :
    businessHoursInInterval (some 1) (some 0) ⟨some "25:00", none, none, none⟩ =
      .error .invertedInterval :=
  (c10_operand_checks_precede_config ⟨some "25:00", none, none, none⟩ .timeValue
    (by decide) 1 0 .nan).2.2.2.2.2.2.2.2 (by decide)

/-- C7 counterexample: `"aa:bb"` consists of two colon-separated fields that
are not numeric; the claim assigns it to the format-error class, but the
code's field-count check passes (two fields) and the NaN parse results fall
into the same check as out-of-range values, so the distinct value error is
raised instead. -/
theorem c7_two_nonnumeric_fields_counterexample :
    (splitOnColon "aa:bb".toList).length = 2 ∧
    jsParseInt ['a', 'a'] = none ∧
    parseTimeString "aa:bb" = .error .timeValue ∧
    normalizeBusinessHoursOptions ⟨some "aa:bb", none, none, none⟩ = .error .timeValue ∧
    BusinessHoursError.timeValue ≠ BusinessHoursError.timeFormat := by
  decide

/-- C7 amended: the format error is raised exactly when the string does not
split into two colon-separated fields; with exactly two fields, the distinct
value error is raised exactly when a field parses as NaN or the hour is
outside 0-23 or the minute outside 0-59 (NaN fields share the value error,
not the format error). -/
theorem c7_time_string_error_classes (time : String) :
    (parseTimeString time = .error .timeFormat ↔ (splitOnColon time.toList).length ≠ 2) ∧
    (parseTimeString time = .error .timeValue ↔
      ∃ p0 p1, splitOnColon time.toList = [p0, p1] ∧
        (jsParseInt p0 = none ∨ jsParseInt p1 = none ∨
          ∃ hours minutes : ℤ, jsParseInt p0 = some hours ∧ jsParseInt p1 = some minutes ∧
            (hours < 0 ∨ 23 < hours ∨ minutes < 0 ∨ 59 < minutes))) := by
  unfold parseTimeString
  rcases hsp : splitOnColon time.toList with - | ⟨p0, - | ⟨p1, - | ⟨p2, tl⟩⟩⟩
  · simp
  · simp
  · dsimp only
    rcases hp0 : jsParseInt p0 with - | h0 <;> rcases hp1 : jsParseInt p1 with - | m0
    · simp only [hp0, hp1]
      simp
      exact ⟨p0, p1, ⟨rfl, rfl⟩, Or.inl hp0⟩
    · simp only [hp0, hp1]
      simp
      exact ⟨p0, p1, ⟨rfl, rfl⟩, Or.inl hp0⟩
    · simp only [hp0, hp1]
      simp
      exact ⟨p0, p1, ⟨rfl, rfl⟩, Or.inr (Or.inl hp1)⟩
    · dsimp only
      split
      · rename_i hcond
        simp only [List.length_cons, List.length_nil, Except.error.injEq]
        constructor
        · simp
        · constructor
          · intro
            exact ⟨p0, p1, rfl, Or.inr (Or.inr ⟨h0, m0, hp0, hp1, hcond⟩)⟩
          · intro
            trivial
      · rename_i hcond
        simp only [List.length_cons, List.length_nil]
        constructor
        · constructor
          · intro h
            exact absurd h (by simp)
          · intro h
            omega
        · constructor
          · intro h
            exact absurd h (by simp)
          · rintro ⟨q0, q1, hq, hbad⟩
            rw [List.cons.injEq, List.cons.injEq] at hq
            obtain ⟨hq0, hq1, -⟩ := hq
            subst hq0
            subst hq1
            rcases hbad with hb | hb | ⟨h', m', hph, hpm, hb⟩
            · rw [hp0] at hb
              exact absurd hb (by simp)
            · rw [hp1] at hb
              exact absurd hb (by simp)
            · rw [hp0, Option.some.injEq] at hph
              rw [hp1, Option.some.injEq] at hpm
              subst hph
              subst hpm
              exact absurd hb hcond
  · simp

/-- C5: for a valid instant, finite nonzero amount and valid configuration,
`addBusinessHours` always terminates: it returns a result or raises one of
the two limit errors, with the snap phase bounded by 366 day advances and
the consumption phase by 10000 iterations; a calendar whose days are all
non-working or holidays across the whole 366-day search horizon yields the
advance-limit error rather than a hang. -/
theorem c5_addBusinessHours_bounded (t : ℤ) (a : ℚ) (o : BusinessHoursOptions)
    (n : NormalizedBusinessHoursOptions) (ha : a ≠ 0)
    (hn : normalizeBusinessHoursOptions o = .ok n) :
    maxAttempts = 366 ∧ maxIterations = 10000 ∧
    ((∃ r, addBusinessHours (some t) (.finite a) o = .ok (some r)) ∨
      addBusinessHours (some t) (.finite a) o = .error .advanceLimit ∨
      addBusinessHours (some t) (.finite a) o = .error .iterationLimit) ∧
    (0 < a → (∀ k : ℕ, k < maxAttempts → dayOff n (dayIndex t + (k : ℤ)) = true) →
      addBusinessHours (some t) (.finite a) o = .error .advanceLimit) := by
  refine ⟨rfl, rfl, ?_, ?_⟩
  · unfold addBusinessHours
    dsimp only
    rw [if_neg ha, hn]
    dsimp only
    rcases moveToWorkingTime_ok_or_limit n (if 0 ≤ a * 60 then 1 else -1) maxAttempts t with
      ⟨r, hr⟩ | hr
    · rw [hr]
      dsimp only
      rcases addBusinessHoursLoop_cases n (if 0 ≤ a * 60 then 1 else -1) maxIterations
          |a * 60| r with ⟨r2, hr2⟩ | hr2 | hr2
      · rw [hr2]
        exact Or.inl ⟨r2, rfl⟩
      · rw [hr2]
        right
        right
        rfl
      · rw [hr2]
        right
        left
        rfl
    · rw [hr]
      right
      left
      rfl
  · intro hpos hcov
    obtain ⟨hs1, hs2, -, -, -⟩ := normalize_ok_facts hn
    unfold addBusinessHours
    dsimp only
    rw [if_neg ha, hn]
    dsimp only
    rw [if_pos (mul_nonneg hpos.le (by norm_num))]
    rw [moveToWorkingTime_allOff n (by omega) maxAttempts t hcov]

set_option maxRecDepth 20000 in
/-- Witness for C5: starting Monday 09:00 with the pathological calendar,
`addBusinessHours` raises the advance-limit error. -/
theorem c5_bounded_witness :
    addBusinessHours (some 378000000) (.finite 1) pathologicalOptions =
      .error .advanceLimit :=
  (c5_addBusinessHours_bounded 378000000 1 pathologicalOptions pathologicalNormalized
    (by norm_num) (by decide)).2.2.2 (by norm_num) (by decide)
